import Mathlib

/-!
Verification of the e-voting cryptographic core.

This file gives a shallow embedding, in Lean 4, of the cryptographic engine
of the repository: the SHA-256 Merkle tree (`crypto/merkle.py`), the salted
SHA-256 commitment scheme (`crypto/commitment.py`), the Paillier tally
wrappers (`crypto/paillier.py`), and exponential ElGamal over the BabyJubJub
curve (`crypto/elgamal.py`).  Python integers are embedded as `Int`
(Python's `%` with a positive modulus agrees with Lean's Euclidean `%` on
`Int`), byte strings as `List Nat`, and code that can raise an exception
returns an `Option`.

SHA-256 itself is idealized as a free constructor (`Digest.ofBytes` for a
hash of raw bytes, `Digest.ofPair` for a hash of the concatenation of two
digests, mirroring `hash_data` / `hash_pair` in the source).  Injectivity
and disjointness of the constructors state exactly the collision-freeness
that the specification assumes of SHA-256; every structural computation of
the source is preserved.

Python loops that are not structurally recursive are embedded with an
explicit fuel argument; the fuel bounds are generous and lemmas below show
they are never exhausted on the inputs reachable from the claims.
-/

namespace EVoting

/-- Byte strings (`bytes` in Python). -/
abbrev Bytes := List Nat

/-- Idealized SHA-256 digests: a free hash algebra.  `ofBytes` is the hash
of a raw byte string, `ofPair` the hash of the concatenation of two
digests. -/
inductive Digest where
  | ofBytes (data : Bytes) : Digest
  | ofPair (l r : Digest) : Digest
deriving DecidableEq, Repr, Inhabited

/-! ## Merkle tree — `src/blockchain-evoting/crypto/merkle.py` -/

namespace MerkleTree

/-- `MerkleTree.hash_data`: SHA-256 of a byte string. -/
def hash_data (data : Bytes) : Digest := Digest.ofBytes data

/-- `MerkleTree.hash_pair`: SHA-256 of the concatenation of two digests. -/
def hash_pair (l r : Digest) : Digest := Digest.ofPair l r

/-- One duplication step of `build`: when the current level has odd length,
the last node is appended again (`current_level.append(current_level[-1])`). -/
def padDup (l : List Digest) : List Digest :=
  if l.length % 2 = 1 then l ++ [l.getLast!] else l

/-- Pairing step of `build`: hash adjacent nodes (`for i in range(0, len, 2)`). -/
def hashPairs : List Digest → List Digest
  | a :: b :: rest => hash_pair a b :: hashPairs rest
  | _ => []

/-- The upper levels of the tree as stored in `self.tree`.

In the Python code `self.tree.append(next_level)` stores the *same list
object* that the next loop iteration mutates with the odd-node duplication,
so every stored level above the leaves that is processed while odd is
stored in its duplicated (even-length) form; the top level (length 1) is
never processed again and stays as computed.  `fuel` is a structural
termination bound (each level is at most half the previous one, so
`data.length` is always enough). -/
def buildUpper (fuel : Nat) (cur : List Digest) : List (List Digest) :=
  match fuel with
  | 0 => []
  | fuel + 1 =>
    if cur.length ≤ 1 then []
    else
      let padded := padDup cur
      let next := hashPairs padded
      (if next.length ≤ 1 then next else padDup next) :: buildUpper fuel next

/-- The tree state after `build` (fields `self.leaves`, `self.tree`). -/
structure State where
  leaves : List Digest
  tree : List (List Digest)
deriving DecidableEq, Repr

/-- `MerkleTree.build`: raises on an empty data list, otherwise hashes the
leaves and builds the levels bottom-up. -/
def build (data_list : List Bytes) : Option State :=
  if data_list = [] then none
  else
    let leaves := data_list.map hash_data
    some ⟨leaves, leaves :: buildUpper leaves.length leaves⟩

/-- `MerkleTree.get_root`: `self.tree[-1][0]` when present. -/
def get_root (t : State) : Option Digest :=
  match t.tree.getLast? with
  | none => none
  | some lvl => lvl.head?

/-- Proof directions: `'L'` means the sibling is on the left, `'R'` on the
right. -/
inductive Dir where
  | L : Dir
  | R : Dir
deriving DecidableEq, Repr

/-- The level walk of `get_proof` (`for level in range(len(self.tree) - 1)`),
carrying the current index. -/
def proofLoop : List (List Digest) → Nat → List (Digest × Dir)
  | [], _ => []
  | level_nodes :: rest, ci =>
    if level_nodes.length % 2 = 1 ∧ ci = level_nodes.length - 1 then
      proofLoop rest (ci / 2)
    else
      let si := if ci % 2 = 0 then ci + 1 else ci - 1
      let dir := if ci % 2 = 0 then Dir.R else Dir.L
      (if h : si < level_nodes.length then [(level_nodes.get ⟨si, h⟩, dir)] else [])
        ++ proofLoop rest (ci / 2)

/-- `MerkleTree.get_proof`: raises when the index is out of range, else
walks every level except the top one. -/
def get_proof (t : State) (index : Int) : Option (List (Digest × Dir)) :=
  if index < 0 ∨ (t.leaves.length : Int) ≤ index then none
  else some (proofLoop t.tree.dropLast index.toNat)

/-- One fold step of `verify_proof`. -/
def verifyStep (h : Digest) : Digest × Dir → Digest
  | (sibling, Dir.L) => hash_pair sibling h
  | (sibling, Dir.R) => hash_pair h sibling

/-- `MerkleTree.verify_proof`: refold the proof from the hashed leaf and
compare with the root. -/
def verify_proof (leaf_data : Bytes) (proof : List (Digest × Dir)) (root : Digest) : Bool :=
  decide (proof.foldl verifyStep (hash_data leaf_data) = root)

end MerkleTree

/-! ## Commitment scheme — `src/blockchain-evoting/crypto/commitment.py` -/

namespace CommitmentScheme

/-- `vote.to_bytes(4, 'big')`: the 4-byte big-endian encoding; Python raises
`OverflowError` when the integer is negative or does not fit in 4 bytes. -/
def toBytesBE4 (v : Int) : Option Bytes :=
  if 0 ≤ v ∧ v < 2 ^ 32 then
    some [v.toNat / 2 ^ 24 % 256, v.toNat / 2 ^ 16 % 256, v.toNat / 2 ^ 8 % 256, v.toNat % 256]
  else none

/-- `CommitmentScheme.create_commitment` with an explicitly supplied salt:
`SHA256(vote.to_bytes(4,'big') + salt)` paired with the salt. -/
def create_commitment (vote : Int) (salt : Bytes) : Option (Digest × Bytes) :=
  (toBytesBE4 vote).map fun b => (Digest.ofBytes (b ++ salt), salt)

/-- `CommitmentScheme.verify_commitment`: recompute the digest and compare. -/
def verify_commitment (vote : Int) (salt : Bytes) (commitment : Digest) : Option Bool :=
  (toBytesBE4 vote).map fun b => decide (Digest.ofBytes (b ++ salt) = commitment)

end CommitmentScheme

/-! ## Paillier wrappers — `src/blockchain-evoting/crypto/paillier.py`

The arithmetic of the `phe` library is external to the repository, so the
wrappers are embedded parametrically: `α` is the type of
`paillier.EncryptedNumber`, `addE` the library's `+`, `decryptE` the
private key's `decrypt`, `encryptE` the public key's `encrypt`.  The
embedded methods model an instance whose keys are set (the `None`-key
checks always pass on the reachable paths of the claims). -/

namespace PaillierCrypto

/-- `PaillierCrypto.add_encrypted`: raises on the empty list, otherwise
folds the library addition over the list. -/
def add_encrypted {α : Type} (addE : α → α → α) : List α → Option α
  | [] => none
  | x :: rest => some (rest.foldl addE x)

/-- `PaillierCrypto.encrypt_vote_onehot`: validates the candidate index,
then requires at least two candidates, then encrypts the one-hot vector. -/
def encrypt_vote_onehot {α : Type} (encryptE : Int → α)
    (candidate_id num_candidates : Int) : Option (List α) :=
  if candidate_id < 0 ∨ num_candidates ≤ candidate_id then none
  else if num_candidates < 2 then none
  else some ((List.range num_candidates.toNat).map fun i =>
    encryptE (if (i : Int) = candidate_id then 1 else 0))

/-- Column extraction `[vote[candidate_idx] for vote in encrypted_votes]`;
raises (an `IndexError`) when some vote vector is too short. -/
def column {α : Type} (encrypted_votes : List (List α)) (j : Nat) : Option (List α) :=
  encrypted_votes.mapM fun vote => vote.get? j

/-- `PaillierCrypto.homomorphic_tally` (sequential): per-candidate column
sums, then decryption of each total. -/
def homomorphic_tally {α : Type} (decryptE : α → Int) (addE : α → α → α)
    (encrypted_votes : List (List α)) (num_candidates : Int) : Option (List Int) :=
  if encrypted_votes.isEmpty then some (List.replicate num_candidates.toNat 0)
  else do
    let totals ← (List.range num_candidates.toNat).mapM fun candidate_idx => do
      let candidate_votes ← column encrypted_votes candidate_idx
      add_encrypted addE candidate_votes
    some (totals.map decryptE)

/-- `PaillierCrypto.homomorphic_tally_parallel`: the `ThreadPoolExecutor`
fans `sum_candidate` out over `range(num_candidates)`; `executor.map` of
the pure function `sum_candidate` is deterministic and order-preserving, so
it is embedded as the order-preserving map over the candidate indices (the
`max_workers` argument has no semantic effect). -/
def homomorphic_tally_parallel {α : Type} (decryptE : α → Int) (addE : α → α → α)
    (encrypted_votes : List (List α)) (num_candidates : Int) : Option (List Int) :=
  if encrypted_votes.isEmpty then some (List.replicate num_candidates.toNat 0)
  else
    let sum_candidate : Nat → Option α := fun candidate_idx => do
      let candidate_votes ← column encrypted_votes candidate_idx
      add_encrypted addE candidate_votes
    do
      let totals ← (List.range num_candidates.toNat).mapM sum_candidate
      some (totals.map decryptE)

end PaillierCrypto

/-! ## ElGamal on BabyJubJub — `src/crypto/elgamal.py` -/

namespace ElGamal

/-- BN254 scalar field prime (`FIELD_PRIME`). -/
def FIELD_PRIME : Int :=
  21888242871839275222246405745257275088548364400416034343698204186575808495617

/-- Curve coefficient `a` (`BABYJUBJUB_A`). -/
def BABYJUBJUB_A : Int := 168700

/-- Curve coefficient `d` (`BABYJUBJUB_D`). -/
def BABYJUBJUB_D : Int := 168696

/-- Order of the generator (`SUBGROUP_ORDER`). -/
def SUBGROUP_ORDER : Int :=
  2736030358979909402780800718157159386076813972158567259200215660948447373041

/-- Points are pairs of Python integers. -/
abbrev Point := Int × Int

/-- The fixed generator (`GENERATOR`, circomlib's Base8). -/
def GENERATOR : Point :=
  (5299619240641551281634865583518297030282874472190772894086521144482721001553,
   16950150798460657717958625567821834550301663161624707787222815936182638968203)

/-- The identity point (`IDENTITY`). -/
def IDENTITY : Point := (0, 1)

/-- `_extended_gcd`, with structural fuel.  It is only ever called (from
`_mod_inv`) on non-negative arguments, and on non-negative arguments every
intermediate value stays non-negative, so it is embedded on `Nat` inputs
with the Bezout coefficients in `Int`.  On fuel exhaustion it returns a
dummy; the fuel lemmas below show `2 * k + 1` fuel is enough whenever the
first argument is below `2 ^ k`. -/
def extended_gcd : Nat → Nat → Nat → Nat × Int × Int
  | 0, _, _ => (0, 0, 0)
  | fuel + 1, a, b =>
    if a = 0 then (b, 0, 1)
    else
      let r := extended_gcd fuel (b % a) a
      (r.1, r.2.2 - (b / a : Nat) * r.2.1, r.2.1)

/-- Fuel used for `_extended_gcd` inside `_mod_inv`: the first argument is
always reduced mod a modulus below `2 ^ 254`, for which `2 * 254 + 1` steps
suffice; `600` is a safe bound. -/
def EGCD_FUEL : Nat := 600

/-- `_mod_inv(a, p)`: raises on `a == 0`, reduces `a` mod `p`, and raises
unless the extended gcd is 1. -/
def mod_inv (a p : Int) : Option Int :=
  if a = 0 then none
  else
    let a' := (a % p).toNat
    let r := extended_gcd EGCD_FUEL a' p.toNat
    if r.1 ≠ 1 then none else some (r.2.1 % p)

/-- `point_add`: twisted Edwards addition with explicit modular inverses;
raises when an inverse does not exist. -/
def point_add (p1 p2 : Point) : Option Point :=
  let x1 := p1.1; let y1 := p1.2
  let x2 := p2.1; let y2 := p2.2
  let p := FIELD_PRIME
  let a := BABYJUBJUB_A
  let d := BABYJUBJUB_D
  let x1x2 := x1 * x2 % p
  let y1y2 := y1 * y2 % p
  let dx1x2y1y2 := d * x1x2 % p * y1y2 % p
  let x3_num := (x1 * y2 + y1 * x2) % p
  let x3_den := (1 + dx1x2y1y2) % p
  match mod_inv x3_den p with
  | none => none
  | some ix =>
    let x3 := x3_num * ix % p
    let y3_num := (y1y2 - a * x1x2) % p
    let y3_den := (1 - dx1x2y1y2) % p
    match mod_inv y3_den p with
    | none => none
    | some iy => some (x3, y3_num * iy % p)

/-- `point_neg`: `-(x, y) = (p - x, y)`, fixing `x = 0`. -/
def point_neg (point : Point) : Point :=
  (if point.1 ≠ 0 then FIELD_PRIME - point.1 else 0, point.2)

/-- `point_sub`: `p1 + (-p2)`. -/
def point_sub (p1 p2 : Point) : Option Point :=
  point_add p1 (point_neg p2)

/-- The double-and-add loop of `scalar_mul`, with structural fuel; the
scalar is already reduced and non-negative, and halves at each step, so
any fuel above its bit length is enough (`SCALAR_FUEL` below). -/
def mulLoop : Nat → Nat → Point → Point → Option Point
  | 0, _, _, _ => none
  | fuel + 1, scalar, result, current =>
    if scalar = 0 then some result
    else do
      let r ← if scalar % 2 = 1 then point_add result current else some result
      let c ← point_add current current
      mulLoop fuel (scalar / 2) r c

/-- Fuel for `scalar_mul`: the reduced scalar is below
`SUBGROUP_ORDER < 2 ^ 252`, so 300 iterations never run out. -/
def SCALAR_FUEL : Nat := 300

/-- `scalar_mul`: reduce mod the subgroup order (Python `%`, so the result
is non-negative), short-circuit zero, then double-and-add. -/
def scalar_mul (scalar : Int) (point : Point) : Option Point :=
  let s := (scalar % SUBGROUP_ORDER).toNat
  if s = 0 then some IDENTITY
  else mulLoop SCALAR_FUEL s IDENTITY point

/-- `is_on_curve`: evaluate `a*x^2 + y^2` against `1 + d*x^2*y^2` mod `p`. -/
def is_on_curve (point : Point) : Bool :=
  let x := point.1; let y := point.2
  let p := FIELD_PRIME
  let a := BABYJUBJUB_A
  let d := BABYJUBJUB_D
  let x2 := x * x % p
  let y2 := y * y % p
  decide ((a * x2 + y2) % p = (1 + d * x2 % p * y2) % p)

/-- `ElGamalCiphertext`: a pair of curve points. -/
structure Ciphertext where
  c1 : Point
  c2 : Point
deriving DecidableEq, Repr

/-- `encrypt(message, pk, randomness)` with explicit randomness:
`(r*G, m*G + r*PK)`. -/
def encrypt (message : Int) (pk : Point) (randomness : Int) : Option Ciphertext := do
  let c1 ← scalar_mul randomness GENERATOR
  let r_pk ← scalar_mul randomness pk
  let m_g ← scalar_mul message GENERATOR
  let c2 ← point_add m_g r_pk
  pure ⟨c1, c2⟩

/-- `decrypt_to_point`: `C2 - sk*C1`. -/
def decrypt_to_point (ciphertext : Ciphertext) (sk : Int) : Option Point := do
  let sk_c1 ← scalar_mul sk ciphertext.c1
  point_sub ciphertext.c2 sk_c1

/-- The baby-step loop: insert `(current, j)` for `j = 0 .. step_size - 1`,
advancing `current` by `G` each time (also after the last insertion, as the
Python loop does). -/
def babyLoop : Nat → Nat → Point → List (Point × Nat) → Option (List (Point × Nat))
  | 0, _, _, acc => some acc
  | count + 1, j, current, acc => do
    let next ← point_add current GENERATOR
    babyLoop count (j + 1) next (acc ++ [(current, j)])

/-- Lookup in the baby-step table with Python `dict` semantics: the most
recent insertion for a key wins. -/
def dictFind (table : List (Point × Nat)) (pt : Point) : Option Nat :=
  (table.reverse.find? fun e => decide (e.1 = pt)).map (·.2)

/-- The giant-step loop: at most `step_size + 1` probes; a table hit only
returns when the reconstructed logarithm is within the bound, and the
probe point always advances by the giant step. -/
def giantLoop (gs : Point) (table : List (Point × Nat)) (s : Nat) (maxv : Int) :
    Nat → Nat → Point → Option Int
  | 0, _, _ => none
  | rem + 1, i, current =>
    match dictFind table current with
    | some j =>
      let m : Int := i * s + j
      if m ≤ maxv then some m
      else do
        let next ← point_add current gs
        giantLoop gs table s maxv rem (i + 1) next
    | none => do
      let next ← point_add current gs
      giantLoop gs table s maxv rem (i + 1) next

/-- `solve_dlog(point, max_value)`: identity short-circuits to 0; raises
(`None`) when no logarithm at most `max_value` is found (or when
`math.isqrt` rejects a negative bound). -/
def solve_dlog (point : Point) (max_value : Int) : Option Int :=
  if point = IDENTITY then some 0
  else if max_value < 0 then none
  else
    let step_size := Nat.sqrt max_value.toNat + 1
    do
      let table ← babyLoop step_size 0 IDENTITY []
      let sg ← scalar_mul step_size GENERATOR
      giantLoop (point_neg sg) table step_size max_value (step_size + 1) 0 point

/-- `decrypt`: decrypt to the point `m*G`, then solve the discrete log. -/
def decrypt (ciphertext : Ciphertext) (sk : Int) (max_value : Int) : Option Int := do
  let m_g ← decrypt_to_point ciphertext sk
  solve_dlog m_g max_value

/-- `homomorphic_add`: raises on the empty list, else adds componentwise. -/
def homomorphic_add : List Ciphertext → Option Ciphertext
  | [] => none
  | ct0 :: rest =>
    rest.foldlM (fun acc ct => do
      let c1 ← point_add acc.c1 ct.c1
      let c2 ← point_add acc.c2 ct.c2
      pure (⟨c1, c2⟩ : Ciphertext)) ct0

/-- `encrypt_vote_onehot` with an explicitly supplied randomness list:
validates the candidate index and the list length, then encrypts each
position. -/
def encrypt_vote_onehot (candidate_id num_candidates : Int) (pk : Point)
    (randomness_list : List Int) : Option (List Ciphertext) :=
  if candidate_id < 0 ∨ num_candidates ≤ candidate_id then none
  else if (randomness_list.length : Int) ≠ num_candidates then none
  else (List.range num_candidates.toNat).mapM fun (i : Nat) =>
    encrypt (if (i : Int) = candidate_id then 1 else 0) pk (randomness_list.getD i 0)

/-- `homomorphic_tally`: the empty election returns the all-zero vector;
otherwise aggregate each candidate column and decrypt it. -/
def homomorphic_tally (all_votes : List (List Ciphertext)) (num_candidates : Int)
    (sk : Int) (max_votes : Int) : Option (List Int) :=
  if all_votes.isEmpty then some (List.replicate num_candidates.toNat 0)
  else do
    let aggregated ← (List.range num_candidates.toNat).mapM fun j => do
      let column ← all_votes.mapM fun vote => vote.get? j
      homomorphic_add column
    aggregated.mapM fun ct => decrypt ct sk max_votes

end ElGamal

end EVoting

/-! ## Claim theorems (part 1) -/

namespace EVoting

set_option maxRecDepth 10000

/-- Helper: the 4-byte big-endian encoding determines the vote. -/
theorem toBytesBE4_inj {v v' : Int} {b : Bytes}
    (h : CommitmentScheme.toBytesBE4 v = some b)
    (h' : CommitmentScheme.toBytesBE4 v' = some b) : v = v' := by
  unfold CommitmentScheme.toBytesBE4 at h h'
  split_ifs at h h' with hv hv'
  · obtain ⟨hv0, hv1⟩ := hv
    obtain ⟨hv0', hv1'⟩ := hv'
    injection h with h
    injection h' with h'
    rw [← h'] at h
    have e1 : v.toNat / 2 ^ 24 % 256 = v'.toNat / 2 ^ 24 % 256 := by
      simpa using congrArg (fun l => l.getD 0 0) h
    have e2 : v.toNat / 2 ^ 16 % 256 = v'.toNat / 2 ^ 16 % 256 := by
      simpa using congrArg (fun l => l.getD 1 0) h
    have e3 : v.toNat / 2 ^ 8 % 256 = v'.toNat / 2 ^ 8 % 256 := by
      simpa using congrArg (fun l => l.getD 2 0) h
    have e4 : v.toNat % 256 = v'.toNat % 256 := by
      simpa using congrArg (fun l => l.getD 3 0) h
    have hb1 : v.toNat < 2 ^ 32 := by omega
    have hb2 : v'.toNat < 2 ^ 32 := by omega
    have : v.toNat = v'.toNat := by omega
    omega

/-- Helper: a successful 4-byte encoding has length 4. -/
theorem toBytesBE4_length {v : Int} {b : Bytes}
    (h : CommitmentScheme.toBytesBE4 v = some b) : b.length = 4 := by
  unfold CommitmentScheme.toBytesBE4 at h
  split_ifs at h
  injection h with h
  rw [← h]
  rfl

/-- C6: commitment verification is exactly recomputation of the hash of the
4-byte big-endian vote followed by the salt: it returns true iff the
supplied commitment equals that digest; it accepts the commitment produced
by `create_commitment`, and rejects a commitment produced from a different
vote or salt. -/
theorem verify_commitment_iff_hash (v : Int) (s : Bytes) (c : Digest) (b : Bytes)
    (hb : CommitmentScheme.toBytesBE4 v = some b) :
    (CommitmentScheme.verify_commitment v s c = some true ↔
      c = Digest.ofBytes (b ++ s)) ∧
    CommitmentScheme.create_commitment v s = some (Digest.ofBytes (b ++ s), s) ∧
    (∀ (v' : Int) (s' b' : Bytes), CommitmentScheme.toBytesBE4 v' = some b' →
      v ≠ v' ∨ s ≠ s' →
      CommitmentScheme.verify_commitment v s (Digest.ofBytes (b' ++ s')) = some false) := by
  refine ⟨?_, ?_, ?_⟩
  · simp only [CommitmentScheme.verify_commitment, hb, Option.map_some]
    constructor
    · intro h
      injection h with h
      have := of_decide_eq_true h
      exact this.symm
    · intro h
      subst h
      simp
  · simp [CommitmentScheme.create_commitment, hb]
  · intro v' s' b' hb' hne
    simp only [CommitmentScheme.verify_commitment, hb, Option.map_some', Option.some.injEq,
      decide_eq_false_iff_not]
    intro hcontra
    have happ : b ++ s = b' ++ s' := by
      injection hcontra
    have hlen : b.length = b'.length := by
      rw [toBytesBE4_length hb, toBytesBE4_length hb']
    obtain ⟨hbe, hse⟩ := List.append_inj happ hlen
    subst hbe
    rcases hne with hne | hne
    · exact hne (toBytesBE4_inj hb hb')
    · exact hne hse

/-- C6 witness: the concrete instance vote 2, salt [5]. -/
theorem verify_commitment_iff_hash_witness :
    (CommitmentScheme.verify_commitment 2 [5] (Digest.ofBytes ([0, 0, 0, 2] ++ [5]))
        = some true ↔
      Digest.ofBytes ([0, 0, 0, 2] ++ [5]) = Digest.ofBytes ([0, 0, 0, 2] ++ [5])) ∧
    CommitmentScheme.create_commitment 2 [5]
        = some (Digest.ofBytes ([0, 0, 0, 2] ++ [5]), [5]) ∧
    (∀ (v' : Int) (s' b' : Bytes), CommitmentScheme.toBytesBE4 v' = some b' →
      (2 : Int) ≠ v' ∨ [5] ≠ s' →
      CommitmentScheme.verify_commitment 2 [5] (Digest.ofBytes (b' ++ s')) = some false) :=
  verify_commitment_iff_hash 2 [5] (Digest.ofBytes ([0, 0, 0, 2] ++ [5])) [0, 0, 0, 2]
    (by decide)

/-- C10: the commitment operations are total exactly on votes representable
as 4 big-endian bytes: both succeed for 0 ≤ v < 2^32 and raise otherwise. -/
theorem commitment_vote_range_totality (v : Int) (salt : Bytes) :
    (0 ≤ v ∧ v < 2 ^ 32 →
      (CommitmentScheme.create_commitment v salt).isSome = true ∧
      ∀ c, (CommitmentScheme.verify_commitment v salt c).isSome = true) ∧
    (v < 0 ∨ 2 ^ 32 ≤ v →
      CommitmentScheme.create_commitment v salt = none ∧
      ∀ c, CommitmentScheme.verify_commitment v salt c = none) := by
  constructor
  · intro hv
    refine ⟨?_, fun c => ?_⟩ <;>
      · simp [CommitmentScheme.create_commitment, CommitmentScheme.verify_commitment,
          CommitmentScheme.toBytesBE4]
        omega
  · intro hv
    refine ⟨?_, fun c => ?_⟩ <;>
      · simp [CommitmentScheme.create_commitment, CommitmentScheme.verify_commitment,
          CommitmentScheme.toBytesBE4]
        omega

/-- C10 witness: vote 5 commits, vote -1 raises. -/
theorem commitment_vote_range_totality_witness :
    ((0 : Int) ≤ 5 ∧ (5 : Int) < 2 ^ 32) ∧
    (CommitmentScheme.create_commitment 5 [9]).isSome = true ∧
    CommitmentScheme.create_commitment (-1) [9] = none :=
  ⟨by decide, ((commitment_vote_range_totality 5 [9]).1 (by decide)).1,
    ((commitment_vote_range_totality (-1) [9]).2 (by decide)).1⟩

/-- C4: the parallel Paillier tally agrees with the sequential one on every
input: the worker fan-out is an order-preserving map over candidate
indices, so both produce the same per-candidate totals in index order. -/
theorem paillier_parallel_tally_eq_sequential {α : Type} (decryptE : α → Int)
    (addE : α → α → α) (encrypted_votes : List (List α)) (num_candidates : Int) :
    PaillierCrypto.homomorphic_tally_parallel decryptE addE encrypted_votes num_candidates =
      PaillierCrypto.homomorphic_tally decryptE addE encrypted_votes num_candidates := rfl

/-- C8: aggregating an empty ciphertext list raises in both engines, while
the ElGamal tally of an empty election returns the all-zero vector. -/
theorem empty_input_semantics :
    (∀ (α : Type) (addE : α → α → α), PaillierCrypto.add_encrypted addE [] = none) ∧
    ElGamal.homomorphic_add [] = none ∧
    ∀ (k : Int), 0 ≤ k → ∀ (sk max_votes : Int),
      ElGamal.homomorphic_tally [] k sk max_votes = some (List.replicate k.toNat 0) := by
  refine ⟨fun α addE => rfl, rfl, fun k hk sk max_votes => ?_⟩
  simp [ElGamal.homomorphic_tally]

/-- C8 witness: three candidates, no ballots. -/
theorem empty_input_semantics_witness :
    (0 : Int) ≤ 3 ∧
    ElGamal.homomorphic_tally [] 3 7 100 = some [0, 0, 0] :=
  ⟨by decide, by simpa using empty_input_semantics.2.2 3 (by decide) 7 100⟩

/-- C9: the Paillier one-hot encoder rejects elections with fewer than two
candidates for every candidate id, while the ElGamal encoder has no such
restriction: with one candidate it reduces to a single encryption. -/
theorem onehot_min_candidates :
    (∀ (α : Type) (encryptE : Int → α) (candidate_id num_candidates : Int),
      num_candidates < 2 →
      PaillierCrypto.encrypt_vote_onehot encryptE candidate_id num_candidates = none) ∧
    ∀ (pk : ElGamal.Point) (r : Int),
      ElGamal.encrypt_vote_onehot 0 1 pk [r] =
        (ElGamal.encrypt 1 pk r).map (fun ct => [ct]) := by
  constructor
  · intro α encryptE candidate_id num_candidates h
    by_cases h1 : candidate_id < 0 ∨ num_candidates ≤ candidate_id
    · simp [PaillierCrypto.encrypt_vote_onehot, h1]
    · simp [PaillierCrypto.encrypt_vote_onehot, h1, h]
  · intro pk r
    cases h : ElGamal.encrypt 1 pk r with
    | none =>
      simp [ElGamal.encrypt_vote_onehot, List.mapM, List.mapM.loop, show List.range 1 = [0] from rfl, h]
    | some ct =>
      simp [ElGamal.encrypt_vote_onehot, List.mapM, List.mapM.loop, show List.range 1 = [0] from rfl, h]

/-- C9 witness: one candidate, candidate id 0. -/
theorem onehot_min_candidates_witness :
    (1 : Int) < 2 ∧
    PaillierCrypto.encrypt_vote_onehot (fun v : Int => v) 0 1 = none :=
  ⟨by decide, onehot_min_candidates.1 Int (fun v => v) 0 1 (by decide)⟩

/-- C1 (failing evaluation): for the three leaves [0], [1], [2] the inclusion
proof of index 2 — the duplicated odd tail — does not verify against the
root: `get_proof` records no sibling at the leaf layer while `build` hashed
that leaf with itself. -/
theorem merkle_odd_tail_proof_fails_eval :
    ((MerkleTree.build [[0], [1], [2]]).bind fun t =>
      (MerkleTree.get_root t).bind fun root =>
        (MerkleTree.get_proof t 2).map fun proof =>
          MerkleTree.verify_proof [2] proof root) = some false := by decide

/-- C2 (counterexample): the round-trip fails at message m = SUBGROUP_ORDER
with sk = 1, r = 1, M = SUBGROUP_ORDER: encryption reduces the scalar mod
the subgroup order, so decryption returns 0, not m. -/
theorem elgamal_roundtrip_fails_at_subgroup_order :
    ElGamal.scalar_mul 1 ElGamal.GENERATOR = some ElGamal.GENERATOR ∧
    ((ElGamal.encrypt ElGamal.SUBGROUP_ORDER ElGamal.GENERATOR 1).bind fun ct =>
      ElGamal.decrypt ct 1 ElGamal.SUBGROUP_ORDER) = some 0 ∧
    (0 : Int) ≠ ElGamal.SUBGROUP_ORDER := by
  refine ⟨by decide, by decide, by decide⟩

/-- C3 (counterexample): the homomorphic-sum round-trip fails for the
single-message list [SUBGROUP_ORDER] with sk = 1, r = 1,
M = SUBGROUP_ORDER: the sum is reduced mod the subgroup order before
decryption, which returns 0. -/
theorem homomorphic_sum_fails_at_subgroup_order :
    ((ElGamal.encrypt ElGamal.SUBGROUP_ORDER ElGamal.GENERATOR 1).bind fun ct =>
      (ElGamal.homomorphic_add [ct]).bind fun sum =>
        ElGamal.decrypt sum 1 ElGamal.SUBGROUP_ORDER) = some 0 ∧
    (0 : Int) ≠ ElGamal.SUBGROUP_ORDER := by
  refine ⟨by decide, by decide⟩

/-- C5 (counterexample): at m = SUBGROUP_ORDER, `scalar_mul` reduces the
scalar to 0 and `solve_dlog` returns 0 rather than m, and with bound m - 1
it still returns 0 rather than raising. -/
theorem bsgs_boundary_fails_at_subgroup_order :
    ((ElGamal.scalar_mul ElGamal.SUBGROUP_ORDER ElGamal.GENERATOR).bind fun pt =>
      ElGamal.solve_dlog pt ElGamal.SUBGROUP_ORDER) = some 0 ∧
    ((ElGamal.scalar_mul ElGamal.SUBGROUP_ORDER ElGamal.GENERATOR).bind fun pt =>
      ElGamal.solve_dlog pt (ElGamal.SUBGROUP_ORDER - 1)) = some 0 ∧
    (0 : Int) ≠ ElGamal.SUBGROUP_ORDER := by
  refine ⟨by decide, by decide, by decide⟩

end EVoting
